import Mathlib

/-!
# go-block: transaction model and command line

A shallow embedding of `blockchain/transaction.go` and `cli/cli.go`.

* Go `int` values are `Int` (no arithmetic on them can overflow in the code
  modelled here: they are only compared, stored and printed).
* A Go `[]byte` is a `ByteSlice`: either `nil` or a (possibly empty) list of
  bytes, so that `nil` and `[]byte{}` stay distinct values with equal length.
* Go strings are `String`; the only operations used are equality and
  concatenation.
* Functions of other packages (`encoding/gob`, `crypto/sha256`, `flag`,
  `wallet`, the rest of `blockchain`) are parameters.
-/

namespace GoBlock

/-- One byte. -/
abbrev Byte := Fin 256

/-- A Go `[]byte`: `nil`, or a slice holding the listed bytes. -/
inductive ByteSlice where
  | nil : ByteSlice
  | mk (elems : List Byte) : ByteSlice
  deriving DecidableEq, Repr

namespace ByteSlice

/-- Go `len(b)`; the nil slice has length 0. -/
def len : ByteSlice → Nat
  | nil => 0
  | mk l => l.length

/-- The bytes held by the slice (none for nil). -/
def toList : ByteSlice → List Byte
  | nil => []
  | mk l => l

end ByteSlice

/-- `type TxOutput struct { Value int; PubKey string }` -/
structure TxOutput where
  Value : Int
  PubKey : String
  deriving DecidableEq, Repr

/-- `type TxInput struct { ID []byte; Out int; Sig string }` -/
structure TxInput where
  ID : ByteSlice
  Out : Int
  Sig : String
  deriving DecidableEq, Repr

/-- `type Transaction struct { ID []byte; Inputs []TxInput; Outputs []TxOutput }` -/
structure Transaction where
  ID : ByteSlice
  Inputs : List TxInput
  Outputs : List TxOutput
  deriving DecidableEq, Repr

/-- The two library functions `setID` calls.  `gobEncode tx` is the content of
the buffer after `gob.NewEncoder(&encoded).Encode(tx)` (encoding a struct of
byte slices, ints and strings into a `bytes.Buffer` has no error path, so the
`CheckError(err)` that follows never fires); `Sum256` is `sha256.Sum256`, whose
result type `[32]byte` fixes the length. -/
structure HashLib where
  gobEncode : Transaction → List Byte
  Sum256 : List Byte → List Byte
  Sum256_length : ∀ b, (Sum256 b).length = 32

/-- `func (tx *Transaction) setID()`: the encoder is handed `tx` itself, that
is all three fields as they are at the time of the call; the digest of the
encoding is stored in `tx.ID`. -/
def Transaction.setID (lib : HashLib) (tx : Transaction) : Transaction :=
  let encoded := lib.gobEncode tx
  let hash := lib.Sum256 encoded
  { tx with ID := ByteSlice.mk hash }

/-- `func CoinbaseTx(to, data string) *Transaction` -/
def CoinbaseTx (lib : HashLib) (to_ data : String) : Transaction :=
  let data := if data = "" then "Coins to " ++ to_ else data
  let txin : TxInput := { ID := ByteSlice.mk [], Out := -1, Sig := data }
  let txout : TxOutput := { Value := 100, PubKey := to_ }
  let tx : Transaction := { ID := ByteSlice.nil, Inputs := [txin], Outputs := [txout] }
  tx.setID lib

/-- `func (tx *Transaction) IsCoinBase() bool`.  The result is `none` when an
index expression `tx.Inputs[0]` is evaluated out of range (a run-time panic);
`&&` evaluates its right operand only when the left one is true. -/
def Transaction.IsCoinBase (tx : Transaction) : Option Bool :=
  if tx.Inputs.length = 1 then
    match tx.Inputs[0]? with
    | none => none
    | some in0 =>
      if in0.ID.len = 0 then
        match tx.Inputs[0]? with
        | none => none
        | some in0 => some (decide (in0.Out = -1))
      else some false
  else some false

/-- `func (in *TxInput) CanUnlock(data string) bool` -/
def TxInput.CanUnlock (inp : TxInput) (data : String) : Bool :=
  decide (inp.Sig = data)

/-- `func (out *TxOutput) CanBeUnlocked(data string) bool` -/
def TxOutput.CanBeUnlocked (out : TxOutput) (data : String) : Bool :=
  decide (out.PubKey = data)

/-- A library instance for examples: the encoding lists the bytes of the ID
field and then the number of inputs and of outputs, and the digest is the
length of the encoding followed by the encoding, cut or zero-padded to 32
bytes. -/
def sampleLib : HashLib where
  gobEncode tx :=
    tx.ID.toList ++ [Fin.ofNat tx.Inputs.length, Fin.ofNat tx.Outputs.length]
  Sum256 b := (Fin.ofNat b.length :: b ++ List.replicate 32 0).take 32
  Sum256_length b := by simp

/-! ## Command line (`cli/cli.go`)

A run of a `CommandLine` method is the list of the events it produces, in
order, together with the way it ends: a normal return, or a stop
(`runtime.Goexit`, `os.Exit`, a run-time panic).  -/

/-- Modelled from the spec: the block record of package `blockchain`, whose
declaration is not part of the sources read here; the command line uses the
fields `PrevHash`, `Hash` and `Transactions`. -/
structure Block where
  PrevHash : ByteSlice
  Hash : ByteSlice
  Transactions : List Transaction
  Nonce : Int
  deriving DecidableEq, Repr

/-- The calls `cli.go` makes into the packages `blockchain` and `wallet`
(with the arguments that are strings or ints of the command line). -/
inductive Call where
  | InitBLockChain (address : String)
  | ContinueBlockChain (address : String)
  | DatabaseClose
  | Reindex
  | CountTransactions
  | FindUTXO (pubKeyHash : List Byte)
  | NewTransaction (from_ to_ : String) (amount : Int)
  | AddBlock
  | Update
  | Base58Encode (input : String)
  | CreateWallets
  | GetAllAddress
  | AddWallet
  | SaveFile
  deriving DecidableEq, Repr

/-- The core operations of the ledger among the calls. -/
def Call.isCore : Call → Bool
  | .InitBLockChain _ => true
  | .ContinueBlockChain _ => true
  | .NewTransaction _ _ _ => true
  | .AddBlock => true
  | .Update => true
  | .Reindex => true
  | .FindUTXO _ => true
  | _ => false

/-- The methods of `CommandLine` that `Run` dispatches to. -/
inductive Handler where
  | reindexUTXO | getBalance | send | printChain | createWallet | listAddresses
  | createBLockChain
  deriving DecidableEq, Repr

/-- What a run can be seen to do. -/
inductive Event where
  /-- the eight `Println` calls of `printUsage` -/
  | usage
  /-- `fmt.Printf("Adress %s is invalid\n", address)` -/
  | invalidAddress (address : String)
  /-- `Run` calls the method -/
  | handler (h : Handler)
  /-- a call into `blockchain` or `wallet` -/
  | call (c : Call)
  /-- a line printed with `Println`, or with `Printf` of strings only -/
  | println (line : String)
  /-- `Printf("Done! There are %d transactions in the UTXO set.\n", count)` -/
  | printCount (count : Int)
  /-- `Printf("Balance of %s: %d\n", address, balance)` -/
  | printBalance (address : String) (balance : Int)
  /-- `Printf("Previos Hash: %x\n", block.PrevHash)` -/
  | printPrevHash (h : ByteSlice)
  /-- `Printf("Block Hash: %x\n", block.Hash)` -/
  | printHash (h : ByteSlice)
  /-- `Printf("PoW: %s\n", strconv.FormatBool(pow.Validate()))` -/
  | printPoW (valid : Bool)
  /-- `fmt.Println(tx)` -/
  | printTx (tx : Transaction)
  /-- `fmt.Println()` -/
  | blank
  deriving DecidableEq, Repr

/-- The ways a run ends other than by returning. -/
inductive Stop where
  | goexit
  | osExit (code : Int)
  | panic
  deriving DecidableEq, Repr

/-- A run: its events and its end. -/
structure Exec (α : Type) where
  trace : List Event
  result : Except Stop α

namespace Exec

/-- Sequencing: the second part runs only if the first returned. -/
def bind {α β : Type} (m : Exec α) (f : α → Exec β) : Exec β :=
  match m.result with
  | .ok a => ⟨m.trace ++ (f a).trace, (f a).result⟩
  | .error s => ⟨m.trace, .error s⟩

instance : Monad Exec where
  pure a := ⟨[], .ok a⟩
  bind := Exec.bind

/-- One event. -/
def emit (e : Event) : Exec Unit := ⟨[e], .ok ()⟩

/-- Several events in a row. -/
def emitAll (es : List Event) : Exec Unit := ⟨es, .ok ()⟩

/-- The run ends here. -/
def stop {α : Type} (s : Stop) : Exec α := ⟨[], .error s⟩

/-- Go `defer d` registered before `body`: `d` runs when the function is left,
also when the body ended by `Goexit` or a panic, but not after `os.Exit`. -/
def withDefer {α : Type} (d : Exec Unit) (body : Exec α) : Exec α :=
  match body.result with
  | .error (.osExit c) => ⟨body.trace, .error (.osExit c)⟩
  | r =>
    ⟨body.trace ++ d.trace,
      match d.result with
      | .ok _ => r
      | .error s => .error s⟩

end Exec

open Exec

/-- Modelled from the spec: the chain iterator and proof-of-work validation of
package `blockchain`, which are not part of the sources read here.  The
iterator "produces blocks from tip to genesis, one per advance" and is finite:
`blocks` is the sequence of blocks successive calls of `iter.Next()` return,
tip first.  Validation is pure: `Validate block` is the result of
`NewProof(block).Validate()`. -/
structure Chain where
  blocks : List Block
  Validate : Block → Bool

/-- What lies outside `cli.go`.

* `parseAddress name args`, `parseSend args`, `parseNoFlags name args`: the
  result of `Parse(args)` on a `flag.FlagSet` created with `flag.ExitOnError`
  and declaring, respectively, one string flag `address`, the flags `from`,
  `to`, `amount`, or no flag.  An error is the exit code of the `os.Exit` the
  flag package performs itself on a parse error or `-h` (so the `err` given to
  `CheckError` is always nil); otherwise the value set for each flag, `none`
  for a flag that does not occur in `args`.
* `ValidateAddress` is `wallet.ValidateAddress`.
* `fate c`: `none` if the call `c` returns, or the way it ends the run.
* `chain`: the chain opened by `ContinueBlockChain`, as read by `printChain`.
* The remaining fields are the values returned by the calls of the same name.
-/
structure World where
  parseAddress : String → List String → Except Int (Option String)
  parseSend : List String → Except Int (Option String × Option String × Option Int)
  parseNoFlags : String → List String → Except Int Unit
  ValidateAddress : String → Bool
  fate : Call → Option Stop
  chain : Chain
  CountTransactions : Int
  FindUTXO : List Byte → List TxOutput
  Base58Encode : String → List Byte
  GetAllAddress : List String
  AddWallet : String

/-- A call into another package. -/
def World.ext (w : World) (c : Call) : Exec Unit :=
  ⟨[Event.call c], match w.fate c with
    | none => .ok ()
    | some s => .error s⟩

/-- The result of `Parse` under `flag.ExitOnError`. -/
def liftParse {α : Type} : Except Int α → Exec α
  | .ok a => pure a
  | .error code => stop (.osExit code)

/-- Go `int` addition (64-bit two's complement). -/
def addInt (a b : Int) : Int := (a + b + 2 ^ 63) % 2 ^ 64 - 2 ^ 63

/-- `runtime.Goexit()` -/
def Goexit {α : Type} : Exec α := stop .goexit

namespace CommandLine

/-- `func (cli *CommandLine) printUsage()` -/
def printUsage : Exec Unit := emit .usage

/-- `func (cli *CommandLine) validateArgs()` -/
def validateArgs (osArgs : List String) : Exec Unit := do
  if osArgs.length < 2 then
    printUsage
    Goexit

/-- `func (cli *CommandLine) validateAddress(address string)` -/
def validateAddress (w : World) (address : String) : Exec Unit := do
  if !w.ValidateAddress address then
    emit (.invalidAddress address)
    Goexit

/-- `func (cli *CommandLine) reindexUTXO()` -/
def reindexUTXO (w : World) : Exec Unit := do
  w.ext (.ContinueBlockChain "")
  withDefer (w.ext .DatabaseClose) do
    w.ext .Reindex
    w.ext .CountTransactions
    emit (.printCount w.CountTransactions)

/-- `func (cli *CommandLine) listAddresses()` -/
def listAddresses (w : World) : Exec Unit := do
  w.ext .CreateWallets
  w.ext .GetAllAddress
  emitAll (w.GetAllAddress.map Event.println)

/-- `func (cli *CommandLine) createWallet()` -/
def createWallet (w : World) : Exec Unit := do
  w.ext .CreateWallets
  w.ext .AddWallet
  w.ext .SaveFile
  emit (.println ("New address is: " ++ w.AddWallet))

/-- What one turn of the loop of `printChain` prints for a block. -/
def blockLines (w : World) (block : Block) : List Event :=
  [Event.printPrevHash block.PrevHash, Event.printHash block.Hash,
    Event.printPoW (w.chain.Validate block)]
    ++ block.Transactions.map Event.printTx ++ [Event.blank]

/-- The `for` loop of `printChain`, on the blocks the iterator has still to
yield.  A `Next` with no block left does not return a block (panic). -/
def printChainLoop (w : World) : List Block → Exec Unit
  | [] => stop .panic
  | block :: rest => do
    emitAll (blockLines w block)
    if block.PrevHash.len = 0 then
      pure ()
    else
      printChainLoop w rest

/-- `func (cli *CommandLine) printChain()` -/
def printChain (w : World) : Exec Unit := do
  w.ext (.ContinueBlockChain "")
  withDefer (w.ext .DatabaseClose) do
    printChainLoop w w.chain.blocks

/-- `func (cli *CommandLine) createBLockChain(address string)` -/
def createBLockChain (w : World) (address : String) : Exec Unit := do
  validateAddress w address
  w.ext (.InitBLockChain address)
  w.ext .DatabaseClose
  emit (.println "Finished!")

/-- `func (cli *CommandLine) getBalance(address string)`; the slice expression
`pubKeyHash[1 : len(pubKeyHash)-4]` panics when the length is below 5. -/
def getBalance (w : World) (address : String) : Exec Unit := do
  validateAddress w address
  w.ext (.ContinueBlockChain address)
  withDefer (w.ext .DatabaseClose) do
    w.ext (.Base58Encode address)
    let pubKeyHash := w.Base58Encode address
    if pubKeyHash.length < 5 then
      stop .panic
    let pubKeyHash := (pubKeyHash.drop 1).take (pubKeyHash.length - 4 - 1)
    w.ext (.FindUTXO pubKeyHash)
    let unspentTxs := w.FindUTXO pubKeyHash
    let balance := unspentTxs.foldl (fun balance out => addInt balance out.Value) 0
    emit (.printBalance address balance)

/-- `func (cli *CommandLine) send(from, to string, amount int)` -/
def send (w : World) (from_ to_ : String) (amount : Int) : Exec Unit := do
  validateAddress w from_
  validateAddress w to_
  w.ext (.ContinueBlockChain from_)
  withDefer (w.ext .DatabaseClose) do
    w.ext (.NewTransaction from_ to_ amount)
    w.ext .AddBlock
    w.ext .Update
    emit (.println "Success!")

/-- The flag sets and flag variables of `Run`: which sets have been parsed
(`Parsed()`), and the values of the flag variables, with the defaults they are
declared with. -/
structure Flags where
  getBalanceParsed : Bool := false
  createBLockchainParsed : Bool := false
  sendParsed : Bool := false
  printChainParsed : Bool := false
  listAddressesParsed : Bool := false
  createWalletParsed : Bool := false
  reindexParsed : Bool := false
  getBalanceAddress : String := ""
  createBLockChainAddress : String := ""
  sendFrom : String := ""
  sendTo : String := ""
  sendAmount : Int := 0
  deriving DecidableEq, Repr

/-- The `switch os.Args[1]` of `Run`: the flag set of the command is parsed on
`os.Args[2:]`; an unknown command prints the usage and ends the run. -/
def RunSwitch (w : World) (osArgs : List String) : Exec Flags :=
  match osArgs[1]? with
  | none => stop .panic
  | some cmd =>
    let args := osArgs.drop 2
    if cmd = "getbalance" then do
      let v ← liftParse (w.parseAddress "getbalance" args)
      pure { getBalanceParsed := true, getBalanceAddress := v.getD "" }
    else if cmd = "send" then do
      let v ← liftParse (w.parseSend args)
      pure { sendParsed := true, sendFrom := v.1.getD "", sendTo := v.2.1.getD "",
             sendAmount := v.2.2.getD 0 }
    else if cmd = "printchain" then do
      liftParse (w.parseNoFlags "printchain" args)
      pure { printChainParsed := true }
    else if cmd = "createBlockchain" then do
      let v ← liftParse (w.parseAddress "createBlockchain" args)
      pure { createBLockchainParsed := true, createBLockChainAddress := v.getD "" }
    else if cmd = "createWallet" then do
      liftParse (w.parseNoFlags "createWallet" args)
      pure { createWalletParsed := true }
    else if cmd = "listaddresses" then do
      liftParse (w.parseNoFlags "listaddresses" args)
      pure { listAddressesParsed := true }
    else if cmd = "reindex" then do
      liftParse (w.parseNoFlags "reindex" args)
      pure { reindexParsed := true }
    else do
      printUsage
      Goexit

/-- The `if ...Parsed()` statements that end `Run`, in source order. -/
def RunDispatch (w : World) (fl : Flags) : Exec Unit := do
  if fl.reindexParsed then
    emit (.handler .reindexUTXO)
    reindexUTXO w
  if fl.getBalanceParsed then
    if fl.getBalanceAddress = "" then
      printUsage
      Goexit
    emit (.handler .getBalance)
    getBalance w fl.getBalanceAddress
  if fl.sendParsed then
    if fl.sendFrom = "" || fl.sendTo = "" || fl.sendAmount ≤ 0 then
      printUsage
      Goexit
    emit (.handler .send)
    send w fl.sendFrom fl.sendTo fl.sendAmount
  if fl.printChainParsed then
    emit (.handler .printChain)
    printChain w
  if fl.createWalletParsed then
    emit (.handler .createWallet)
    createWallet w
  if fl.listAddressesParsed then
    emit (.handler .listAddresses)
    listAddresses w
  if fl.createBLockchainParsed then
    if fl.createBLockChainAddress = "" then
      printUsage
      Goexit
    emit (.handler .createBLockChain)
    createBLockChain w fl.createBLockChainAddress

/-- `func (cli *CommandLine) Run()`, on the argument vector `os.Args`. -/
def Run (w : World) (osArgs : List String) : Exec Unit := do
  validateArgs osArgs
  let fl ← RunSwitch w osArgs
  RunDispatch w fl

end CommandLine

/-- A world for examples: flags are read from `-name value` pairs in the order
the usage text gives them, the only valid addresses are "A" and "B", every
call returns, and the chain holds two blocks of which the tip fails
validation. -/
def sampleWorld : World where
  parseAddress _ args :=
    match args with
    | [] => .ok none
    | ["-address", a] => .ok (some a)
    | _ => .error 2
  parseSend args :=
    match args with
    | [] => .ok (none, none, none)
    | ["-from", f, "-to", t, "-amount", "40"] => .ok (some f, some t, some 40)
    | ["-from", f, "-to", t, "-amount", "0"] => .ok (some f, some t, some 0)
    | _ => .error 2
  parseNoFlags _ args :=
    match args with
    | [] => .ok ()
    | _ => .error 2
  ValidateAddress a := a = "A" || a = "B"
  fate _ := none
  chain :=
    { blocks :=
        [ { PrevHash := ByteSlice.mk [1], Hash := ByteSlice.mk [2], Transactions := [],
            Nonce := 7 },
          { PrevHash := ByteSlice.mk [], Hash := ByteSlice.mk [1], Transactions := [],
            Nonce := 3 } ]
      Validate := fun block => decide (block.Hash = ByteSlice.mk [1]) }
  CountTransactions := 1
  FindUTXO _ := [{ Value := 100, PubKey := "A" }]
  Base58Encode _ := [0, 1, 2, 3, 4, 5]
  GetAllAddress := ["A", "B"]
  AddWallet := "B"

/-! ## Classification of argument vectors, used to state the properties of `Run` -/

/-- The command names `Run` recognises, as the `switch` spells them. -/
def commandNames : List String :=
  ["getbalance", "send", "printchain", "createBlockchain", "createWallet", "listaddresses",
    "reindex"]

/-- The argument vector has no command, an unrecognised command, an empty
`-address` for `getbalance` or `createBlockchain`, or for `send` an empty
`-from`, an empty `-to` or an `-amount` that is not positive. -/
def malformedArgs (w : World) : List String → Bool
  | _ :: cmd :: args =>
    if cmd = "getbalance" then
      match w.parseAddress "getbalance" args with
      | .ok v => decide (v.getD "" = "")
      | .error _ => false
    else if cmd = "createBlockchain" then
      match w.parseAddress "createBlockchain" args with
      | .ok v => decide (v.getD "" = "")
      | .error _ => false
    else if cmd = "send" then
      match w.parseSend args with
      | .ok v => decide (v.1.getD "" = "" ∨ v.2.1.getD "" = "" ∨ v.2.2.getD 0 ≤ 0)
      | .error _ => false
    else !(commandNames.contains cmd)
  | _ => true

/-- The first address of the command line that fails wallet address
validation, with the method that checks it, when the argument vector is not
`malformedArgs`. -/
def invalidAddressOf (w : World) : List String → Option (Handler × String)
  | _ :: cmd :: args =>
    if cmd = "getbalance" then
      match w.parseAddress "getbalance" args with
      | .ok v =>
        if v.getD "" ≠ "" ∧ w.ValidateAddress (v.getD "") = false then
          some (Handler.getBalance, v.getD "")
        else none
      | .error _ => none
    else if cmd = "createBlockchain" then
      match w.parseAddress "createBlockchain" args with
      | .ok v =>
        if v.getD "" ≠ "" ∧ w.ValidateAddress (v.getD "") = false then
          some (Handler.createBLockChain, v.getD "")
        else none
      | .error _ => none
    else if cmd = "send" then
      match w.parseSend args with
      | .ok v =>
        if v.1.getD "" = "" ∨ v.2.1.getD "" = "" ∨ v.2.2.getD 0 ≤ 0 then none
        else if w.ValidateAddress (v.1.getD "") = false then some (Handler.send, v.1.getD "")
        else if w.ValidateAddress (v.2.1.getD "") = false then some (Handler.send, v.2.1.getD "")
        else none
      | .error _ => none
    else none
  | _ => none

/-- The argument vector is invalid or has a missing argument: it is
`malformedArgs` or holds an address that fails validation. -/
def invalidArgs (w : World) (osArgs : List String) : Bool :=
  malformedArgs w osArgs || (invalidAddressOf w osArgs).isSome

/-- The core operations a run has invoked. -/
def coreCalls (t : List Event) : List Call :=
  t.filterMap fun e =>
    match e with
    | .call c => if c.isCore then some c else none
    | _ => none

/-- The methods `Run` has dispatched to. -/
def handlersOf (t : List Event) : List Handler :=
  t.filterMap fun e =>
    match e with
    | .handler h => some h
    | _ => none

/-- Events that a method body produces once it is past its checks: calls into
other packages and printed results (not the usage text, not the invalid
address message, not the entry into a method). -/
def Event.quiet : Event → Bool
  | .usage => false
  | .invalidAddress _ => false
  | .handler _ => false
  | _ => true

/-- Every event of the run is quiet. -/
def Exec.Quiet {α : Type} (m : Exec α) : Prop := ∀ e ∈ m.trace, e.quiet = true

/-- The method each command name of the specification stands for. -/
def specHandler (cmd : String) : Option Handler :=
  if cmd = "createblockchain" then some Handler.createBLockChain
  else if cmd = "getbalance" then some Handler.getBalance
  else if cmd = "send" then some Handler.send
  else if cmd = "printchain" then some Handler.printChain
  else if cmd = "createwallet" then some Handler.createWallet
  else if cmd = "listaddresses" then some Handler.listAddresses
  else if cmd = "reindex" then some Handler.reindexUTXO
  else none

/-- The method each command name stands for, as the `switch` spells the names. -/
def codeHandler (cmd : String) : Option Handler :=
  if cmd = "createBlockchain" then some Handler.createBLockChain
  else if cmd = "getbalance" then some Handler.getBalance
  else if cmd = "send" then some Handler.send
  else if cmd = "printchain" then some Handler.printChain
  else if cmd = "createWallet" then some Handler.createWallet
  else if cmd = "listaddresses" then some Handler.listAddresses
  else if cmd = "reindex" then some Handler.reindexUTXO
  else none

/-- The arguments `args` are valid and non-empty for the method `h` (the flag
set being named `name`): they parse, every address asked for is given, not
empty and passes wallet validation, and the amount is positive. -/
def validArgsFor (w : World) (h : Handler) (name : String) (args : List String) : Bool :=
  match h with
  | .getBalance | .createBLockChain =>
    match w.parseAddress name args with
    | .ok v => decide (v.getD "" ≠ "") && w.ValidateAddress (v.getD "")
    | .error _ => false
  | .send =>
    match w.parseSend args with
    | .ok v =>
      decide (v.1.getD "" ≠ "") && decide (v.2.1.getD "" ≠ "") && decide (0 < v.2.2.getD 0)
        && w.ValidateAddress (v.1.getD "") && w.ValidateAddress (v.2.1.getD "")
    | .error _ => false
  | _ =>
    match w.parseNoFlags name args with
    | .ok _ => true
    | .error _ => false

/-! ## Theorems: transaction model -/

/-- Claim C1: `IsCoinBase` never fails; it returns true exactly when the
transaction has one input whose ID is empty (nil or the empty slice) and whose
Out is -1, and returns false in every other case, the empty input list
included. -/
theorem IsCoinBase_iff (tx : Transaction) :
    (tx.IsCoinBase = some true ↔
        ∃ i, tx.Inputs = [i] ∧ (i.ID = ByteSlice.nil ∨ i.ID = ByteSlice.mk []) ∧ i.Out = -1) ∧
    (tx.IsCoinBase = some false ↔
        ¬ ∃ i, tx.Inputs = [i] ∧ (i.ID = ByteSlice.nil ∨ i.ID = ByteSlice.mk []) ∧ i.Out = -1) := by
  obtain ⟨id, ins, outs⟩ := tx
  have hlen : ∀ b : ByteSlice, b.len = 0 ↔ (b = ByteSlice.nil ∨ b = ByteSlice.mk []) := by
    intro b
    cases b with
    | nil => simp [ByteSlice.len]
    | mk l => cases l <;> simp [ByteSlice.len]
  match ins with
  | [] => simp [Transaction.IsCoinBase]
  | [i] =>
    by_cases h1 : i.ID.len = 0
    · have h1b := (hlen i.ID).1 h1
      by_cases h2 : i.Out = -1 <;> simp [Transaction.IsCoinBase, h1, h2, h1b]
    · have h1b : ¬ (i.ID = ByteSlice.nil ∨ i.ID = ByteSlice.mk []) := fun h => h1 ((hlen i.ID).2 h)
      simp [Transaction.IsCoinBase, h1, h1b]
  | _ :: _ :: _ => simp [Transaction.IsCoinBase]

/-- Claim C2: the transaction built by `CoinbaseTx` has exactly one input, with
an empty referenced id and output index -1, and `IsCoinBase` is true on it,
for every address and every data string. -/
theorem CoinbaseTx_isCoinBase (lib : HashLib) (to_ data : String) :
    (∃ i, (CoinbaseTx lib to_ data).Inputs = [i] ∧ i.ID.len = 0 ∧ i.Out = -1) ∧
    (CoinbaseTx lib to_ data).IsCoinBase = some true := by
  constructor
  · exact ⟨_, rfl, rfl, rfl⟩
  · simp [CoinbaseTx, Transaction.setID, Transaction.IsCoinBase, ByteSlice.len]

/-- Claim C3: the transaction built by `CoinbaseTx` has exactly one output, of
value 100 and locked to the address; that output can be unlocked with the
address and the output values sum to 100, whatever the data string. -/
theorem CoinbaseTx_outputs (lib : HashLib) (to_ data : String) :
    (CoinbaseTx lib to_ data).Outputs = [{ Value := 100, PubKey := to_ }] ∧
    (∀ out ∈ (CoinbaseTx lib to_ data).Outputs, out.CanBeUnlocked to_ = true) ∧
    ((CoinbaseTx lib to_ data).Outputs.map (fun out => out.Value)).sum = 100 := by
  refine ⟨rfl, ?_, ?_⟩
  · intro out hout
    simp [CoinbaseTx, Transaction.setID] at hout
    simp [hout, TxOutput.CanBeUnlocked]
  · simp [CoinbaseTx, Transaction.setID]

/-- Claim C4, as stated, fails: two transactions with the same (empty) inputs
and outputs and different ID fields are given different ids by `setID`, and a
second `setID` changes the id assigned by the first. -/
theorem setID_reads_ID_field :
    (⟨ByteSlice.mk [1], [], []⟩ : Transaction).Inputs
      = (⟨ByteSlice.mk [2], [], []⟩ : Transaction).Inputs ∧
    (⟨ByteSlice.mk [1], [], []⟩ : Transaction).Outputs
      = (⟨ByteSlice.mk [2], [], []⟩ : Transaction).Outputs ∧
    ((⟨ByteSlice.mk [1], [], []⟩ : Transaction).setID sampleLib).ID
      ≠ ((⟨ByteSlice.mk [2], [], []⟩ : Transaction).setID sampleLib).ID ∧
    (((⟨ByteSlice.mk [1], [], []⟩ : Transaction).setID sampleLib).setID sampleLib).ID
      ≠ ((⟨ByteSlice.mk [1], [], []⟩ : Transaction).setID sampleLib).ID := by
  decide

/-- Claim C4, amended: `setID` stores the digest of the encoding of the whole
transaction as it stands at the call (32 bytes) and changes no other field, so
two transactions that agree on the ID field, the inputs and the outputs get
the same id; `CoinbaseTx` calls it while the ID field is nil, so the id of a
coinbase transaction is the digest of the encoding of its inputs and outputs
under a nil ID. -/
theorem setID_function_of_fields (lib : HashLib) (tx1 tx2 : Transaction)
    (hid : tx1.ID = tx2.ID) (hin : tx1.Inputs = tx2.Inputs) (hout : tx1.Outputs = tx2.Outputs) :
    (tx1.setID lib).ID = (tx2.setID lib).ID ∧
    (tx1.setID lib).ID = ByteSlice.mk (lib.Sum256 (lib.gobEncode tx1)) ∧
    (tx1.setID lib).ID.len = 32 ∧
    (tx1.setID lib).Inputs = tx1.Inputs ∧ (tx1.setID lib).Outputs = tx1.Outputs ∧
    ∀ to_ data, (CoinbaseTx lib to_ data).ID =
      ByteSlice.mk (lib.Sum256 (lib.gobEncode
        { ID := ByteSlice.nil, Inputs := (CoinbaseTx lib to_ data).Inputs,
          Outputs := (CoinbaseTx lib to_ data).Outputs })) := by
  have h : tx1 = tx2 := by
    cases tx1; cases tx2; simp_all
  subst h
  refine ⟨rfl, rfl, ?_, rfl, rfl, fun _ _ => rfl⟩
  simp [Transaction.setID, ByteSlice.len, lib.Sum256_length]

/-- Witness for `setID_function_of_fields`: two equal transactions under the sample library. -/
theorem setID_function_of_fields_witness :
    ((⟨ByteSlice.nil, [], [⟨5, "a"⟩]⟩ : Transaction).setID sampleLib).ID =
      ((⟨ByteSlice.nil, [], [⟨5, "a"⟩]⟩ : Transaction).setID sampleLib).ID ∧
    ((⟨ByteSlice.nil, [], [⟨5, "a"⟩]⟩ : Transaction).setID sampleLib).ID.len = 32 :=
  have h := setID_function_of_fields sampleLib ⟨ByteSlice.nil, [], [⟨5, "a"⟩]⟩
    ⟨ByteSlice.nil, [], [⟨5, "a"⟩]⟩ rfl rfl rfl
  ⟨h.1, h.2.2.1⟩

/-- Claim C8: `CanBeUnlocked` is true exactly when the output's PubKey equals
the key; the Value field does not matter. -/
theorem CanBeUnlocked_iff (out : TxOutput) (key : String) :
    (out.CanBeUnlocked key = true ↔ out.PubKey = key) ∧
    ∀ v : Int, ({ out with Value := v } : TxOutput).CanBeUnlocked key = out.CanBeUnlocked key := by
  simp [TxOutput.CanBeUnlocked]

/-- Claim C9: `CanUnlock` is true exactly when the input's Sig equals the key;
the referenced id and the output index do not matter. -/
theorem CanUnlock_iff (inp : TxInput) (key : String) :
    (inp.CanUnlock key = true ↔ inp.Sig = key) ∧
    ∀ (id : ByteSlice) (out : Int),
      ({ inp with ID := id, Out := out } : TxInput).CanUnlock key = inp.CanUnlock key := by
  simp [TxInput.CanUnlock]

/-- Claim C10: with empty data the input's Sig is "Coins to " followed by the
address, with non-empty data it is the data unchanged, and `CoinbaseTx to ""`
equals `CoinbaseTx to ("Coins to " ++ to)` in every field, the id included. -/
theorem CoinbaseTx_default_data (lib : HashLib) (to_ data : String) :
    (CoinbaseTx lib to_ "").Inputs.map (fun i => i.Sig) = ["Coins to " ++ to_] ∧
    (data ≠ "" → (CoinbaseTx lib to_ data).Inputs.map (fun i => i.Sig) = [data]) ∧
    CoinbaseTx lib to_ "" = CoinbaseTx lib to_ ("Coins to " ++ to_) := by
  have hne : "Coins to " ++ to_ ≠ "" := by
    intro h
    have hl := congrArg String.length h
    rw [String.length_append] at hl
    have h9 : "Coins to ".length = 9 := by decide
    have h0 : "".length = 0 := by decide
    omega
  refine ⟨?_, ?_, ?_⟩
  · simp [CoinbaseTx, Transaction.setID]
  · intro hd
    simp [CoinbaseTx, Transaction.setID, hd]
  · simp [CoinbaseTx, hne]

/-- Witness for `CoinbaseTx_default_data` at address "A" and data "genesis". -/
theorem CoinbaseTx_default_data_witness :
    ("genesis" ≠ "") ∧
    (CoinbaseTx sampleLib "A" "genesis").Inputs.map (fun i => i.Sig) = ["genesis"] ∧
    CoinbaseTx sampleLib "A" "" = CoinbaseTx sampleLib "A" ("Coins to " ++ "A") :=
  ⟨by decide, (CoinbaseTx_default_data sampleLib "A" "genesis").2.1 (by decide),
    (CoinbaseTx_default_data sampleLib "A" "genesis").2.2⟩

/-! ## Theorems: command line -/

open CommandLine

theorem bind_eq {α β : Type} (m : Exec α) (f : α → Exec β) : (m >>= f) = Exec.bind m f := rfl

theorem pure_eq {α : Type} (a : α) : (pure a : Exec α) = ⟨[], .ok a⟩ := rfl

/-- Claim C5, as stated, fails: `getbalance -address bad`, with an address that
fails validation, is an invalid argument vector, and the run ends without a
core operation but does not print the usage text. -/
theorem Run_invalid_address_no_usage :
    invalidArgs sampleWorld ["go-block", "getbalance", "-address", "bad"] = true ∧
    sampleWorld.ValidateAddress "bad" = false ∧
    Event.usage ∉ (Run sampleWorld ["go-block", "getbalance", "-address", "bad"]).trace ∧
    (Run sampleWorld ["go-block", "getbalance", "-address", "bad"]).trace =
      [Event.handler Handler.getBalance, Event.invalidAddress "bad"] := by
  decide


theorem Run_cons_cons (w : World) (p cmd : String) (args : List String) :
    Run w (p :: cmd :: args) = Exec.bind (RunSwitch w (p :: cmd :: args)) (RunDispatch w) := by
  have h : ¬ (args.length + 1 + 1 < 2) := by omega
  simp [Run, validateArgs, bind_eq, Exec.bind, pure_eq, h]

theorem Run_short (w : World) (osArgs : List String) (h : osArgs.length < 2) :
    Run w osArgs = ⟨[Event.usage], .error Stop.goexit⟩ := by
  simp [Run, validateArgs, bind_eq, Exec.bind, printUsage, emit, Goexit, stop, h]

theorem Run_unknown (w : World) (p cmd : String) (args : List String)
    (h : cmd ∉ commandNames) :
    Run w (p :: cmd :: args) = ⟨[Event.usage], .error Stop.goexit⟩ := by
  simp [commandNames] at h
  simp [Run_cons_cons, bind_eq, Exec.bind, printUsage, emit, Goexit, stop, RunSwitch, h]

theorem Run_getbalance (w : World) (p : String) (args : List String) :
    Run w (p :: "getbalance" :: args) =
      match w.parseAddress "getbalance" args with
      | .error c => ⟨[], .error (Stop.osExit c)⟩
      | .ok v =>
        if v.getD "" = "" then ⟨[Event.usage], .error Stop.goexit⟩
        else ⟨Event.handler Handler.getBalance :: (getBalance w (v.getD "")).trace,
              (getBalance w (v.getD "")).result⟩ := by
  rw [Run_cons_cons]
  cases hp : w.parseAddress "getbalance" args with
  | error c => simp [Exec.bind, RunSwitch, liftParse, hp, bind_eq, stop]
  | ok v =>
    by_cases h : v.getD "" = ""
    · simp [bind_eq, Exec.bind, printUsage, emit, Goexit, stop, RunSwitch, RunDispatch, liftParse,
        hp, h, pure_eq]
    · simp [bind_eq, Exec.bind, printUsage, emit, Goexit, stop, RunSwitch, RunDispatch, liftParse,
        hp, h, pure_eq]
      all_goals (cases (getBalance w (v.getD "")).result <;> simp)

theorem Run_createBlockchain (w : World) (p : String) (args : List String) :
    Run w (p :: "createBlockchain" :: args) =
      match w.parseAddress "createBlockchain" args with
      | .error c => ⟨[], .error (Stop.osExit c)⟩
      | .ok v =>
        if v.getD "" = "" then ⟨[Event.usage], .error Stop.goexit⟩
        else ⟨Event.handler Handler.createBLockChain :: (createBLockChain w (v.getD "")).trace,
              (createBLockChain w (v.getD "")).result⟩ := by
  rw [Run_cons_cons]
  cases hp : w.parseAddress "createBlockchain" args with
  | error c => simp [Exec.bind, RunSwitch, liftParse, hp, bind_eq, stop]
  | ok v =>
    by_cases h : v.getD "" = ""
    · simp [bind_eq, Exec.bind, printUsage, emit, Goexit, stop, RunSwitch, RunDispatch, liftParse,
        hp, h, pure_eq]
    · simp [bind_eq, Exec.bind, printUsage, emit, Goexit, stop, RunSwitch, RunDispatch, liftParse,
        hp, h, pure_eq]

theorem Run_send (w : World) (p : String) (args : List String) :
    Run w (p :: "send" :: args) =
      match w.parseSend args with
      | .error c => ⟨[], .error (Stop.osExit c)⟩
      | .ok v =>
        if v.1.getD "" = "" ∨ v.2.1.getD "" = "" ∨ v.2.2.getD 0 ≤ 0 then
          ⟨[Event.usage], .error Stop.goexit⟩
        else ⟨Event.handler Handler.send ::
                (send w (v.1.getD "") (v.2.1.getD "") (v.2.2.getD 0)).trace,
              (send w (v.1.getD "") (v.2.1.getD "") (v.2.2.getD 0)).result⟩ := by
  rw [Run_cons_cons]
  cases hp : w.parseSend args with
  | error c => simp [Exec.bind, RunSwitch, liftParse, hp, bind_eq, stop]
  | ok v =>
    by_cases h : (v.1.getD "" = "" ∨ v.2.1.getD "" = "") ∨ v.2.2.getD 0 ≤ 0
    · have h2 := h
      rw [or_assoc] at h2
      simp only [if_pos h2]
      simp [bind_eq, Exec.bind, printUsage, emit, Goexit, stop, RunSwitch, RunDispatch, liftParse,
        hp, h, pure_eq]
    · have h2 := h
      rw [or_assoc] at h2
      simp only [if_neg h2]
      simp [bind_eq, Exec.bind, printUsage, emit, Goexit, stop, RunSwitch, RunDispatch, liftParse,
        hp, h, pure_eq]
      all_goals (cases (send w (v.1.getD "") (v.2.1.getD "") (v.2.2.getD 0)).result <;> simp)

theorem Run_printchain (w : World) (p : String) (args : List String) :
    Run w (p :: "printchain" :: args) =
      match w.parseNoFlags "printchain" args with
      | .error c => ⟨[], .error (Stop.osExit c)⟩
      | .ok _ => ⟨Event.handler Handler.printChain :: (printChain w).trace, (printChain w).result⟩ := by
  rw [Run_cons_cons]
  cases hp : w.parseNoFlags "printchain" args with
  | error c => simp [Exec.bind, RunSwitch, liftParse, hp, bind_eq, stop]
  | ok v =>
    simp [bind_eq, Exec.bind, emit, RunSwitch, RunDispatch, liftParse, hp, pure_eq]
    all_goals (cases (printChain w).result <;> simp)

theorem Run_createWallet (w : World) (p : String) (args : List String) :
    Run w (p :: "createWallet" :: args) =
      match w.parseNoFlags "createWallet" args with
      | .error c => ⟨[], .error (Stop.osExit c)⟩
      | .ok _ =>
        ⟨Event.handler Handler.createWallet :: (createWallet w).trace, (createWallet w).result⟩ := by
  rw [Run_cons_cons]
  cases hp : w.parseNoFlags "createWallet" args with
  | error c => simp [Exec.bind, RunSwitch, liftParse, hp, bind_eq, stop]
  | ok v =>
    simp [bind_eq, Exec.bind, emit, RunSwitch, RunDispatch, liftParse, hp, pure_eq]
    all_goals (cases (createWallet w).result <;> simp)

theorem Run_listaddresses (w : World) (p : String) (args : List String) :
    Run w (p :: "listaddresses" :: args) =
      match w.parseNoFlags "listaddresses" args with
      | .error c => ⟨[], .error (Stop.osExit c)⟩
      | .ok _ =>
        ⟨Event.handler Handler.listAddresses :: (listAddresses w).trace,
          (listAddresses w).result⟩ := by
  rw [Run_cons_cons]
  cases hp : w.parseNoFlags "listaddresses" args with
  | error c => simp [Exec.bind, RunSwitch, liftParse, hp, bind_eq, stop]
  | ok v =>
    simp [bind_eq, Exec.bind, emit, RunSwitch, RunDispatch, liftParse, hp, pure_eq]
    all_goals (cases (listAddresses w).result <;> simp)

theorem Run_reindex (w : World) (p : String) (args : List String) :
    Run w (p :: "reindex" :: args) =
      match w.parseNoFlags "reindex" args with
      | .error c => ⟨[], .error (Stop.osExit c)⟩
      | .ok _ =>
        ⟨Event.handler Handler.reindexUTXO :: (reindexUTXO w).trace, (reindexUTXO w).result⟩ := by
  rw [Run_cons_cons]
  cases hp : w.parseNoFlags "reindex" args with
  | error c => simp [Exec.bind, RunSwitch, liftParse, hp, bind_eq, stop]
  | ok v =>
    simp [bind_eq, Exec.bind, emit, RunSwitch, RunDispatch, liftParse, hp, pure_eq]
    all_goals (cases (reindexUTXO w).result <;> simp)

theorem validateAddress_eq (w : World) (a : String) :
    validateAddress w a =
      if w.ValidateAddress a = true then ⟨[], .ok ()⟩
      else ⟨[Event.invalidAddress a], .error Stop.goexit⟩ := by
  cases h : w.ValidateAddress a <;>
    simp [validateAddress, h, bind_eq, Exec.bind, emit, Goexit, stop, pure_eq]

theorem getBalance_invalid (w : World) (a : String) (h : w.ValidateAddress a = false) :
    getBalance w a = ⟨[Event.invalidAddress a], .error Stop.goexit⟩ := by
  simp [getBalance, validateAddress_eq, h, bind_eq, Exec.bind]

theorem createBLockChain_invalid (w : World) (a : String) (h : w.ValidateAddress a = false) :
    createBLockChain w a = ⟨[Event.invalidAddress a], .error Stop.goexit⟩ := by
  simp [createBLockChain, validateAddress_eq, h, bind_eq, Exec.bind]

theorem send_invalid_from (w : World) (f t : String) (n : Int) (h : w.ValidateAddress f = false) :
    send w f t n = ⟨[Event.invalidAddress f], .error Stop.goexit⟩ := by
  simp [send, validateAddress_eq, h, bind_eq, Exec.bind]

theorem send_invalid_to (w : World) (f t : String) (n : Int) (hf : w.ValidateAddress f = true)
    (h : w.ValidateAddress t = false) :
    send w f t n = ⟨[Event.invalidAddress t], .error Stop.goexit⟩ := by
  simp [send, validateAddress_eq, h, hf, bind_eq, Exec.bind]

theorem Run_malformedArgs (w : World) (osArgs : List String) (h : malformedArgs w osArgs = true) :
    Run w osArgs = ⟨[Event.usage], .error Stop.goexit⟩ := by
  match osArgs with
  | [] => exact Run_short w [] (by simp)
  | [_] => exact Run_short w [_] (by simp)
  | p :: cmd :: args =>
    simp only [malformedArgs] at h
    by_cases h1 : cmd = "getbalance"
    · subst h1
      rw [Run_getbalance]
      cases hp : w.parseAddress "getbalance" args with
      | error c => simp [hp] at h
      | ok v =>
        simp [hp] at h
        simp [h]
    by_cases h2 : cmd = "createBlockchain"
    · subst h2
      rw [Run_createBlockchain]
      cases hp : w.parseAddress "createBlockchain" args with
      | error c => simp [hp] at h
      | ok v =>
        simp [hp] at h
        simp [h]
    by_cases h3 : cmd = "send"
    · subst h3
      rw [Run_send]
      cases hp : w.parseSend args with
      | error c => simp [hp] at h
      | ok v =>
        simp [hp] at h
        simp [h]
    simp [h1, h2, h3] at h
    exact Run_unknown w p cmd args h

theorem Run_invalidAddress (w : World) (osArgs : List String) (h : Handler) (a : String)
    (hi : invalidAddressOf w osArgs = some (h, a)) :
    w.ValidateAddress a = false ∧
    Run w osArgs = ⟨[Event.handler h, Event.invalidAddress a], .error Stop.goexit⟩ := by
  match osArgs with
  | [] => simp [invalidAddressOf] at hi
  | [_] => simp [invalidAddressOf] at hi
  | p :: cmd :: args =>
    simp only [invalidAddressOf] at hi
    by_cases h1 : cmd = "getbalance"
    · subst h1
      rw [Run_getbalance]
      cases hp : w.parseAddress "getbalance" args with
      | error c => simp [hp] at hi
      | ok v =>
        simp [hp] at hi
        obtain ⟨⟨hne, hv⟩, rfl, rfl⟩ := hi
        simp [hne, hv, getBalance_invalid]
    by_cases h2 : cmd = "createBlockchain"
    · subst h2
      rw [Run_createBlockchain]
      cases hp : w.parseAddress "createBlockchain" args with
      | error c => simp [hp] at hi
      | ok v =>
        simp [hp] at hi
        obtain ⟨⟨hne, hv⟩, rfl, rfl⟩ := hi
        simp [hne, hv, createBLockChain_invalid]
    by_cases h3 : cmd = "send"
    · subst h3
      rw [Run_send]
      cases hp : w.parseSend args with
      | error c => simp [hp] at hi
      | ok v =>
        simp only [hp] at hi
        by_cases hs : v.1.getD "" = "" ∨ v.2.1.getD "" = "" ∨ v.2.2.getD 0 ≤ 0
        · simp [hs] at hi
        · simp only [if_neg hs] at hi
          by_cases hf : w.ValidateAddress (v.1.getD "") = false
          · simp [hf] at hi
            obtain ⟨rfl, rfl⟩ := hi
            simp [hs, hf, send_invalid_from]
          · simp only [if_neg hf] at hi
            by_cases ht : w.ValidateAddress (v.2.1.getD "") = false
            · simp [ht] at hi
              obtain ⟨rfl, rfl⟩ := hi
              simp at hf
              simp [hs, ht, send_invalid_to, hf]
            · simp [ht] at hi
    simp [h1, h2, h3] at hi

theorem Quiet.bind {α β : Type} {m : Exec α} {f : α → Exec β} (hm : m.Quiet)
    (hf : ∀ a, (f a).Quiet) : (m >>= f).Quiet := by
  intro e he
  rw [bind_eq] at he
  unfold Exec.bind at he
  cases hr : m.result with
  | ok a =>
    simp only [hr, List.mem_append] at he
    rcases he with he | he
    · exact hm e he
    · exact hf a e he
  | error s =>
    simp only [hr] at he
    exact hm e he

theorem Quiet.withDefer {α : Type} {d : Exec Unit} {body : Exec α} (hd : d.Quiet)
    (hb : body.Quiet) : (withDefer d body).Quiet := by
  intro e he
  unfold Exec.withDefer at he
  split at he
  · exact hb e he
  · simp only [List.mem_append] at he
    rcases he with he | he
    · exact hb e he
    · exact hd e he

theorem Quiet.ext (w : World) (c : Call) : (w.ext c).Quiet := by
  intro e he
  simp [World.ext] at he
  simp [he, Event.quiet]

theorem Quiet.pure {α : Type} (a : α) : (pure a : Exec α).Quiet := by
  intro e he
  simp [pure_eq] at he

theorem Quiet.stop {α : Type} (s : Stop) : (stop s : Exec α).Quiet := by
  intro e he
  simp [Exec.stop] at he

theorem Quiet.emitAll (es : List Event) (h : ∀ e ∈ es, e.quiet = true) : (emitAll es).Quiet := by
  intro e he
  exact h e he

theorem Quiet.emit (e : Event) (h : e.quiet = true) : (emit e).Quiet := by
  intro e1 he
  simp [Exec.emit] at he
  simp [he, h]

theorem Quiet.ite {α : Type} {c : Prop} [Decidable c] {a b : Exec α} (ha : a.Quiet) (hb : b.Quiet) :
    (if c then a else b).Quiet := by
  split <;> assumption

theorem Quiet.validateAddress (w : World) (a : String) (h : w.ValidateAddress a = true) :
    (validateAddress w a).Quiet := by
  rw [validateAddress_eq]
  simp [h]
  intro e he
  simp at he

theorem reindexUTXO_quiet (w : World) : (reindexUTXO w).Quiet := by
  unfold reindexUTXO
  refine Quiet.bind (Quiet.ext _ _) fun _ => ?_
  refine Quiet.withDefer (Quiet.ext _ _) ?_
  refine Quiet.bind (Quiet.ext _ _) fun _ => ?_
  refine Quiet.bind (Quiet.ext _ _) fun _ => ?_
  exact Quiet.emit _ rfl

theorem listAddresses_quiet (w : World) : (listAddresses w).Quiet := by
  unfold listAddresses
  refine Quiet.bind (Quiet.ext _ _) fun _ => ?_
  refine Quiet.bind (Quiet.ext _ _) fun _ => ?_
  refine Quiet.emitAll _ ?_
  intro e he
  simp only [List.mem_map] at he
  obtain ⟨a, _, rfl⟩ := he
  rfl

theorem createWallet_quiet (w : World) : (createWallet w).Quiet := by
  unfold createWallet
  refine Quiet.bind (Quiet.ext _ _) fun _ => ?_
  refine Quiet.bind (Quiet.ext _ _) fun _ => ?_
  refine Quiet.bind (Quiet.ext _ _) fun _ => ?_
  exact Quiet.emit _ rfl

theorem blockLines_quiet (w : World) (b : Block) : ∀ e ∈ blockLines w b, e.quiet = true := by
  intro e he
  simp only [blockLines, List.mem_append, List.mem_cons, List.mem_map, List.mem_singleton,
    List.not_mem_nil, or_false] at he
  rcases he with ((rfl | rfl | rfl) | ⟨tx, _, rfl⟩) | rfl <;> rfl

theorem printChainLoop_quiet (w : World) (bs : List Block) : (printChainLoop w bs).Quiet := by
  induction bs with
  | nil => exact Quiet.stop _
  | cons b rest ih =>
    unfold printChainLoop
    refine Quiet.bind (Quiet.emitAll _ (blockLines_quiet w b)) fun _ => ?_
    exact Quiet.ite (Quiet.pure _) ih

theorem printChain_quiet (w : World) : (printChain w).Quiet := by
  unfold printChain
  refine Quiet.bind (Quiet.ext _ _) fun _ => ?_
  exact Quiet.withDefer (Quiet.ext _ _) (printChainLoop_quiet w _)

theorem createBLockChain_quiet (w : World) (a : String) (h : w.ValidateAddress a = true) :
    (createBLockChain w a).Quiet := by
  unfold createBLockChain
  refine Quiet.bind (Quiet.validateAddress w a h) fun _ => ?_
  refine Quiet.bind (Quiet.ext _ _) fun _ => ?_
  refine Quiet.bind (Quiet.ext _ _) fun _ => ?_
  exact Quiet.emit _ rfl

theorem getBalance_quiet (w : World) (a : String) (h : w.ValidateAddress a = true) :
    (getBalance w a).Quiet := by
  unfold getBalance
  refine Quiet.bind (Quiet.validateAddress w a h) fun _ => ?_
  refine Quiet.bind (Quiet.ext _ _) fun _ => ?_
  refine Quiet.withDefer (Quiet.ext _ _) ?_
  refine Quiet.bind (Quiet.ext _ _) fun _ => ?_
  dsimp only
  split <;> refine Quiet.bind ?_ fun _ => Quiet.bind (Quiet.ext _ _) fun _ => Quiet.emit _ rfl
  · exact Quiet.stop _
  · exact Quiet.pure _

theorem send_quiet (w : World) (f t : String) (n : Int) (hf : w.ValidateAddress f = true)
    (ht : w.ValidateAddress t = true) : (send w f t n).Quiet := by
  unfold send
  refine Quiet.bind (Quiet.validateAddress w f hf) fun _ => ?_
  refine Quiet.bind (Quiet.validateAddress w t ht) fun _ => ?_
  refine Quiet.bind (Quiet.ext _ _) fun _ => ?_
  refine Quiet.withDefer (Quiet.ext _ _) ?_
  refine Quiet.bind (Quiet.ext _ _) fun _ => ?_
  refine Quiet.bind (Quiet.ext _ _) fun _ => ?_
  refine Quiet.bind (Quiet.ext _ _) fun _ => ?_
  exact Quiet.emit _ rfl

theorem quiet_trace_facts (t : List Event) (h : ∀ e ∈ t, e.quiet = true) :
    handlersOf t = [] ∧ Event.usage ∉ t ∧ ∀ a, Event.invalidAddress a ∉ t := by
  refine ⟨?_, ?_, ?_⟩
  · unfold handlersOf
    rw [List.filterMap_eq_nil_iff]
    intro e he
    have := h e he
    cases e <;> simp_all [Event.quiet]
  · intro hu
    have := h _ hu
    simp [Event.quiet] at this
  · intro a hu
    have := h _ hu
    simp [Event.quiet] at this

theorem printChainLoop_eq (w : World) (pre : List Block) (g : Block) (post : List Block)
    (hpre : ∀ b ∈ pre, b.PrevHash.len ≠ 0) (hg : g.PrevHash.len = 0) :
    printChainLoop w (pre ++ g :: post) = ⟨(pre ++ [g]).flatMap (blockLines w), .ok ()⟩ := by
  induction pre with
  | nil =>
    simp [printChainLoop, hg, bind_eq, Exec.bind, emitAll, pure_eq]
  | cons b rest ih =>
    have hb : b.PrevHash.len ≠ 0 := hpre b (by simp)
    have ih2 := ih (fun c hc => hpre c (by simp [hc]))
    simp [printChainLoop, hb, bind_eq, Exec.bind, emitAll, ih2]

/-- Claim C6, as stated, fails: `createblockchain` and `createwallet`, spelled
as the specification lists them and given valid arguments, are not dispatched
to a method; `Run` prints the usage text and stops. -/
theorem Run_spec_spelling_prints_usage :
    (specHandler "createblockchain" = some Handler.createBLockChain ∧
      validArgsFor sampleWorld Handler.createBLockChain "createblockchain" ["-address", "A"] = true ∧
      handlersOf (Run sampleWorld ["go-block", "createblockchain", "-address", "A"]).trace = [] ∧
      (Run sampleWorld ["go-block", "createblockchain", "-address", "A"]).trace = [Event.usage]) ∧
    (specHandler "createwallet" = some Handler.createWallet ∧
      validArgsFor sampleWorld Handler.createWallet "createwallet" [] = true ∧
      handlersOf (Run sampleWorld ["go-block", "createwallet"]).trace = [] ∧
      (Run sampleWorld ["go-block", "createwallet"]).trace = [Event.usage]) := by
  decide

/-- Claim C6, amended: each of the seven command names as the code spells them
(createBlockchain, getbalance, send, printchain, createWallet, listaddresses,
reindex), given valid, non-empty arguments, is dispatched by `Run` to exactly
one method, the one it stands for, which is entered first; the usage text and
the invalid address message are never printed. -/
theorem Run_dispatches_one_handler (w : World) (p cmd : String) (args : List String)
    (h : Handler) (hc : codeHandler cmd = some h) (hv : validArgsFor w h cmd args = true) :
    (∃ rest, (Run w (p :: cmd :: args)).trace = Event.handler h :: rest ∧
      ∀ e ∈ rest, e.quiet = true) ∧
    handlersOf (Run w (p :: cmd :: args)).trace = [h] ∧
    Event.usage ∉ (Run w (p :: cmd :: args)).trace ∧
    ∀ a, Event.invalidAddress a ∉ (Run w (p :: cmd :: args)).trace := by
  have key : ∃ rest, (Run w (p :: cmd :: args)).trace = Event.handler h :: rest ∧
      ∀ e ∈ rest, e.quiet = true := by
    unfold codeHandler at hc
    by_cases h1 : cmd = "createBlockchain"
    · subst h1
      simp at hc
      subst hc
      rw [Run_createBlockchain]
      simp only [validArgsFor] at hv
      cases hp : w.parseAddress "createBlockchain" args with
      | error c => simp [hp] at hv
      | ok v =>
        simp [hp] at hv
        simp only [if_neg hv.1]
        exact ⟨_, rfl, createBLockChain_quiet w _ hv.2⟩
    by_cases h2 : cmd = "getbalance"
    · subst h2
      simp at hc
      subst hc
      rw [Run_getbalance]
      simp only [validArgsFor] at hv
      cases hp : w.parseAddress "getbalance" args with
      | error c => simp [hp] at hv
      | ok v =>
        simp [hp] at hv
        simp only [if_neg hv.1]
        exact ⟨_, rfl, getBalance_quiet w _ hv.2⟩
    by_cases h3 : cmd = "send"
    · subst h3
      simp at hc
      subst hc
      rw [Run_send]
      simp only [validArgsFor] at hv
      cases hp : w.parseSend args with
      | error c => simp [hp] at hv
      | ok v =>
        simp [hp] at hv
        obtain ⟨⟨⟨⟨hf, ht⟩, hn⟩, hvf⟩, hvt⟩ := hv
        have hs : ¬ (v.1.getD "" = "" ∨ v.2.1.getD "" = "" ∨ v.2.2.getD 0 ≤ 0) := by
          rintro (h | h | h)
          · exact hf h
          · exact ht h
          · omega
        simp only [if_neg hs]
        exact ⟨_, rfl, send_quiet w _ _ _ hvf hvt⟩
    by_cases h4 : cmd = "printchain"
    · subst h4
      simp at hc
      subst hc
      rw [Run_printchain]
      simp only [validArgsFor] at hv
      cases hp : w.parseNoFlags "printchain" args with
      | error c => simp [hp] at hv
      | ok v => exact ⟨_, rfl, printChain_quiet w⟩
    by_cases h5 : cmd = "createWallet"
    · subst h5
      simp at hc
      subst hc
      rw [Run_createWallet]
      simp only [validArgsFor] at hv
      cases hp : w.parseNoFlags "createWallet" args with
      | error c => simp [hp] at hv
      | ok v => exact ⟨_, rfl, createWallet_quiet w⟩
    by_cases h6 : cmd = "listaddresses"
    · subst h6
      simp at hc
      subst hc
      rw [Run_listaddresses]
      simp only [validArgsFor] at hv
      cases hp : w.parseNoFlags "listaddresses" args with
      | error c => simp [hp] at hv
      | ok v => exact ⟨_, rfl, listAddresses_quiet w⟩
    by_cases h7 : cmd = "reindex"
    · subst h7
      simp at hc
      subst hc
      rw [Run_reindex]
      simp only [validArgsFor] at hv
      cases hp : w.parseNoFlags "reindex" args with
      | error c => simp [hp] at hv
      | ok v => exact ⟨_, rfl, reindexUTXO_quiet w⟩
    simp [h1, h2, h3, h4, h5, h6, h7] at hc
  obtain ⟨rest, hrest, hq⟩ := key
  obtain ⟨q1, q2, q3⟩ := quiet_trace_facts rest hq
  refine ⟨⟨rest, hrest, hq⟩, ?_, ?_, ?_⟩
  · rw [hrest]
    simp [handlersOf] at q1 ⊢
    exact q1
  · rw [hrest]
    simp [q2]
  · intro a
    rw [hrest]
    simp [q3 a]

/-- Claim C5, amended: for an argument vector with no command, an unrecognised
command, an empty address for `getbalance` or `createBlockchain`, or an empty
`-from`, empty `-to` or non-positive `-amount` for `send`, `Run` prints the
usage text, does nothing else and ends by `Goexit`; for an argument vector
whose address fails wallet validation, `Run` enters the method, prints that
the address is invalid (not the usage text), does nothing else and ends by
`Goexit`.  In both cases no core operation is invoked. -/
theorem Run_invalid_args (w : World) (osArgs : List String) :
    (malformedArgs w osArgs = true →
      Run w osArgs = ⟨[Event.usage], .error Stop.goexit⟩) ∧
    (∀ h a, invalidAddressOf w osArgs = some (h, a) →
      w.ValidateAddress a = false ∧
      Run w osArgs = ⟨[Event.handler h, Event.invalidAddress a], .error Stop.goexit⟩) ∧
    (invalidArgs w osArgs = true →
      coreCalls (Run w osArgs).trace = [] ∧ (Run w osArgs).result = .error Stop.goexit) := by
  refine ⟨Run_malformedArgs w osArgs, Run_invalidAddress w osArgs, ?_⟩
  intro hinv
  unfold invalidArgs at hinv
  rw [Bool.or_eq_true] at hinv
  rcases hinv with hs | ha
  · rw [Run_malformedArgs w osArgs hs]
    exact ⟨rfl, rfl⟩
  · rw [Option.isSome_iff_exists] at ha
    obtain ⟨⟨h, a⟩, hha⟩ := ha
    rw [(Run_invalidAddress w osArgs h a hha).2]
    exact ⟨rfl, rfl⟩

/-- Witness for `Run_invalid_args`: `send` with amount 0 prints the usage text,
`send` to the invalid address "C" prints the invalid address message. -/
theorem Run_invalid_args_witness :
    malformedArgs sampleWorld ["go-block", "send", "-from", "A", "-to", "B", "-amount", "0"]
      = true ∧
    Run sampleWorld ["go-block", "send", "-from", "A", "-to", "B", "-amount", "0"]
      = ⟨[Event.usage], .error Stop.goexit⟩ ∧
    invalidAddressOf sampleWorld ["go-block", "send", "-from", "A", "-to", "C", "-amount", "40"]
      = some (Handler.send, "C") ∧
    Run sampleWorld ["go-block", "send", "-from", "A", "-to", "C", "-amount", "40"]
      = ⟨[Event.handler Handler.send, Event.invalidAddress "C"], .error Stop.goexit⟩ ∧
    invalidArgs sampleWorld ["go-block"] = true ∧
    coreCalls (Run sampleWorld ["go-block"]).trace = [] :=
  ⟨by decide,
    (Run_invalid_args sampleWorld
      ["go-block", "send", "-from", "A", "-to", "B", "-amount", "0"]).1 (by decide),
    by decide,
    ((Run_invalid_args sampleWorld
      ["go-block", "send", "-from", "A", "-to", "C", "-amount", "40"]).2.1
        Handler.send "C" (by decide)).2,
    by decide,
    ((Run_invalid_args sampleWorld ["go-block"]).2.2 (by decide)).1⟩

/-- Witness for `Run_dispatches_one_handler`: `createBlockchain -address A`. -/
theorem Run_dispatches_one_handler_witness :
    codeHandler "createBlockchain" = some Handler.createBLockChain ∧
    validArgsFor sampleWorld Handler.createBLockChain "createBlockchain" ["-address", "A"] = true ∧
    handlersOf (Run sampleWorld ["go-block", "createBlockchain", "-address", "A"]).trace
      = [Handler.createBLockChain] ∧
    Event.usage ∉ (Run sampleWorld ["go-block", "createBlockchain", "-address", "A"]).trace :=
  have h := Run_dispatches_one_handler sampleWorld "go-block" "createBlockchain" ["-address", "A"]
    Handler.createBLockChain (by decide) (by decide)
  ⟨by decide, by decide, h.2.1, h.2.2.1⟩

/-- Claim C7, as stated, fails: on a chain whose tip fails validation,
`printChain` prints `PoW: false` for the tip and then goes on to print its
predecessor. -/
theorem printChain_continues_after_invalid_block :
    sampleWorld.chain.blocks.map sampleWorld.chain.Validate = [false, true] ∧
    (printChain sampleWorld).trace =
      [Event.call (Call.ContinueBlockChain ""),
        Event.printPrevHash (ByteSlice.mk [1]), Event.printHash (ByteSlice.mk [2]),
        Event.printPoW false, Event.blank,
        Event.printPrevHash (ByteSlice.mk []), Event.printHash (ByteSlice.mk [1]),
        Event.printPoW true, Event.blank,
        Event.call Call.DatabaseClose] := by
  decide

/-- Claim C7, amended: when the chain opens and the iterator yields the blocks
`pre`, all with a non-empty PrevHash, and then a block `g` with an empty
PrevHash, `printChain` prints every one of these blocks in order, each with
the result of its validation, whatever these results are: a block that fails
validation is printed with `PoW: false` and the iteration goes on to its
predecessors, ending only after `g`. -/
theorem printChain_prints_every_block (w : World) (pre : List Block) (g : Block)
    (post : List Block) (hopen : w.fate (Call.ContinueBlockChain "") = none)
    (hb : w.chain.blocks = pre ++ g :: post) (hpre : ∀ b ∈ pre, b.PrevHash.len ≠ 0)
    (hg : g.PrevHash.len = 0) :
    (printChain w).trace =
      Event.call (Call.ContinueBlockChain "") :: (pre ++ [g]).flatMap (blockLines w)
        ++ [Event.call Call.DatabaseClose] ∧
    (∀ b ∈ pre ++ [g], Event.printHash b.Hash ∈ (printChain w).trace ∧
      Event.printPoW (w.chain.Validate b) ∈ (printChain w).trace) ∧
    (printChain w).result =
      match w.fate Call.DatabaseClose with
      | none => .ok ()
      | some s => .error s := by
  have ht : printChain w =
      ⟨Event.call (Call.ContinueBlockChain "") :: (pre ++ [g]).flatMap (blockLines w)
        ++ [Event.call Call.DatabaseClose],
        match w.fate Call.DatabaseClose with
        | none => .ok ()
        | some s => .error s⟩ := by
    unfold printChain
    rw [hb, printChainLoop_eq w pre g post hpre hg]
    simp only [bind_eq, Exec.bind, World.ext, hopen, withDefer]
    cases w.fate Call.DatabaseClose <;> simp
  refine ⟨by rw [ht], ?_, by rw [ht]⟩
  intro b hbm
  rw [ht]
  have h1 : Event.printHash b.Hash ∈ (pre ++ [g]).flatMap (blockLines w) :=
    List.mem_flatMap.2 ⟨b, hbm, by simp [blockLines]⟩
  have h2 : Event.printPoW (w.chain.Validate b) ∈ (pre ++ [g]).flatMap (blockLines w) :=
    List.mem_flatMap.2 ⟨b, hbm, by simp [blockLines]⟩
  exact ⟨List.mem_cons_of_mem _ (List.mem_append_left _ h1),
    List.mem_cons_of_mem _ (List.mem_append_left _ h2)⟩

/-- Witness for `printChain_prints_every_block` on the sample chain, whose tip
fails validation. -/
theorem printChain_prints_every_block_witness :
    sampleWorld.chain.Validate
      { PrevHash := ByteSlice.mk [1], Hash := ByteSlice.mk [2], Transactions := [], Nonce := 7 }
      = false ∧
    Event.printHash (ByteSlice.mk [1]) ∈ (printChain sampleWorld).trace :=
  ⟨by decide,
    ((printChain_prints_every_block sampleWorld
      [{ PrevHash := ByteSlice.mk [1], Hash := ByteSlice.mk [2], Transactions := [], Nonce := 7 }]
      { PrevHash := ByteSlice.mk [], Hash := ByteSlice.mk [1], Transactions := [], Nonce := 3 }
      [] rfl rfl (by decide) rfl).2.1
      { PrevHash := ByteSlice.mk [], Hash := ByteSlice.mk [1], Transactions := [], Nonce := 3 }
      (by decide)).1⟩

end GoBlock
